import Mathlib

/-!
Verification of the stopword-removal utility (`stopwords.py`).

The program is embedded shallowly: Python strings become `List Char`,
Python's fallible NLTK calls (`word_tokenize`, `stopwords.words`) become
`Except`-valued fields of an `NLTK` structure passed as a parameter, and
writes to `stderr` become an explicit message log returned alongside the
result.  The external NLTK library itself is not part of the repository,
so theorems are stated parametrically in the `NLTK` structure wherever
possible; concrete instances use a tokenizer and an English stopword list
modelled from the specification.
-/

namespace Stopwords

/-- A token (a Python string) is modelled as its list of characters. -/
abbrev Token := List Char

/-- A language code, also a Python string. -/
abbrev Lang := List Char

/-- Embedding of Python `str.lower()` (ASCII-complete; the inputs the
claims use are ASCII or unaffected characters). -/
def pyLower (s : List Char) : List Char := s.map Char.toLower

/-- Characters matched by Python's `\s` regex class and `str.strip()`
over the ASCII range: space, tab, newline, carriage return, vertical
tab, form feed. -/
def isPySpace (c : Char) : Bool :=
  c == ' ' || c == '\t' || c == '\n' || c == '\x0d' || c == '\x0b' || c == '\x0c'

/-- Embedding of Python's `string.punctuation`:
the 32 ASCII punctuation characters, in order. -/
def punctuationString : List Char :=
  "!\"#$%&\x27()*+,-./:;<=>?@[\\]^_\x60\x7b|\x7d~".toList

/-- Embedding of Python's substring containment `w in s` for strings:
`pyIn w s` is true iff `w` occurs contiguously inside `s`
(the empty string is contained in every string, as in Python). -/
def pyIn (w : List Char) : List Char → Bool
  | [] => w.isPrefixOf []
  | c :: rest => w.isPrefixOf (c :: rest) || pyIn w rest

/-- Embedding of the `special_chars` string of `remove_stopwords`
(line 103).  Its actual characters are backtick, straight single
quote, double quote, hyphen, underscore, and a second straight single
quote (bytes 60 27 22 2d 5f 27): despite the adjacent source comment
saying "curly quote", the string contains no U+2019. -/
def specialChars : List Char := "\x60\x27\"-_\x27".toList

/-- Embedding of `word.endswith("'s")`. -/
def endsWithApostropheS (w : Token) : Bool :=
  List.isSuffixOf ['\x27', 's'] w

/-- Embedding of the possessive strip: `if word.endswith("'s"): word = word[:-2]`. -/
def stripPossessive (w : Token) : Token :=
  if endsWithApostropheS w then w.take (w.length - 2) else w

/-- Embedding of the loop `for char in special_chars: word = word.replace(char, "")`
(replacing a single character by the empty string deletes its occurrences). -/
def removeSpecialChars (w : Token) : Token :=
  specialChars.foldl (fun acc c => acc.filter (fun ch => ch != c)) w

/-- The per-token cleanup applied in the `punctuation == False` branch:
strip a possessive `'s` suffix, then delete all special characters. -/
def cleanToken (w : Token) : Token := removeSpecialChars (stripPossessive w)

/-- The predicate of the first list comprehension of the no-punctuation
branch: `word not in stop_words and word not in string.punctuation`
(the second test is substring containment in `string.punctuation`). -/
def keepWord (stop_words : List Token) (w : Token) : Bool :=
  !(stop_words.contains w) && !(pyIn w punctuationString)

/-- Embedding of the filtering stage of `remove_stopwords`
(lines 87-119): the stopword filter, and — when punctuation is being
removed — the punctuation filter followed by per-token cleanup that
keeps only non-empty results. -/
def filterTokens (stop_words : List Token) (punctuation : Bool)
    (words : List Token) : List Token :=
  if punctuation then
    words.filter (fun w => !(stop_words.contains w))
  else
    let filtered_words := words.filter (keepWord stop_words)
    filtered_words.filterMap (fun w =>
      let w := cleanToken w
      if w = [] then none else some w)

/-- Embedding of `" ".join(filtered_words)`. -/
def joinWords : List Token → List Char
  | [] => []
  | [w] => w
  | w :: ws => w ++ ' ' :: joinWords ws

/-- Helper for `collapseWs`: the boolean records whether the previous
character belonged to a whitespace run already replaced by a space. -/
def collapseWsAux : Bool → List Char → List Char
  | _, [] => []
  | prevSpace, c :: cs =>
    if isPySpace c then
      if prevSpace then collapseWsAux true cs
      else ' ' :: collapseWsAux true cs
    else c :: collapseWsAux false cs

/-- Embedding of `re.sub(r"\s+", " ", s)`: every maximal run of
whitespace characters is replaced by a single space. -/
def collapseWs (s : List Char) : List Char := collapseWsAux false s

/-- Embedding of Python `str.strip()`: remove leading and trailing
whitespace. -/
def pyStrip (s : List Char) : List Char :=
  ((s.dropWhile isPySpace).reverse.dropWhile isPySpace).reverse

/-- A message written to `stderr` by `remove_stopwords`, as structured
data: the unsupported-language warning (carrying the normalized language
and the sorted list of supported languages it prints), the NLTK resource
error diagnostic (carrying the exception text), and the remediation
hint about downloading NLTK resources. -/
inductive Msg where
  | unsupportedLanguage (language : Lang) (supported : List Lang)
  | resourceError (e : List Char)
  | resourceHint
deriving DecidableEq, Repr

/-- The value returned by `remove_stopwords`: a joined string or a list
of words, mirroring the Python return type `str | list[str]`. -/
inductive FilterResult where
  | str (s : List Char)
  | list (words : List Token)
deriving DecidableEq, Repr

/-- Lexicographic string comparison used to embed Python's `sorted`. -/
def strLe : List Char → List Char → Bool
  | [], _ => true
  | _ :: _, [] => false
  | c :: cs, d :: ds => if c = d then strLe cs ds else decide (c < d)

/-- Insertion of a string into a sorted list (helper for `sortStrings`). -/
def insertSorted (w : Lang) : List Lang → List Lang
  | [] => [w]
  | x :: xs => if strLe w x then w :: x :: xs else x :: insertSorted w xs

/-- Embedding of Python's `sorted` on a list of strings. -/
def sortStrings (l : List Lang) : List Lang := l.foldr insertSorted []

/-- The external NLTK services `remove_stopwords` depends on:
`stopwords.fileids()` (the supported-language set), `stopwords.words`
and `word_tokenize`, the last two fallible with `LookupError`
(modelled as `Except` carrying the exception text). -/
structure NLTK where
  fileids : List Lang
  words : Lang → Except (List Char) (List Token)
  word_tokenize : List Char → Except (List Char) (List Token)

/-- Embedding of `DEFAULT_LANGUAGE = "english"`. -/
def DEFAULT_LANGUAGE : Lang := "english".toList

/-- Embedding of the language-normalization step (lines 66-72):
lowercase the language; if it is not a supported fileid, record the
warning (which lists the sorted supported languages) and fall back to
the default language. -/
def resolveLanguage (supported : List Lang) (language : Lang) : Lang × List Msg :=
  let language := pyLower language
  if supported.contains language then (language, [])
  else (DEFAULT_LANGUAGE, [Msg.unsupportedLanguage language (sortStrings supported)])

/-- Embedding of `remove_stopwords(text, language, punctuation, list_words)`.
Returns the `Except`-wrapped result (a raised `LookupError` is `.error`)
paired with the list of messages written to `stderr`, in order. -/
def remove_stopwords (nltk : NLTK) (text : List Char) (language : Lang)
    (punctuation : Bool) (list_words : Bool) :
    Except (List Char) FilterResult × List Msg :=
  if text = [] then
    (Except.ok (if list_words then FilterResult.list [] else FilterResult.str []), [])
  else
    let resolved := resolveLanguage nltk.fileids language
    let language := resolved.1
    let msgs := resolved.2
    let text := pyLower text
    match nltk.word_tokenize text with
    | Except.error e => (Except.error e, msgs ++ [Msg.resourceError e, Msg.resourceHint])
    | Except.ok words =>
      match nltk.words language with
      | Except.error e => (Except.error e, msgs ++ [Msg.resourceError e, Msg.resourceHint])
      | Except.ok stop_words =>
        let filtered_words := filterTokens stop_words punctuation words
        if list_words then (Except.ok (FilterResult.list filtered_words), msgs)
        else
          (Except.ok (FilterResult.str (pyStrip (collapseWs (joinWords filtered_words)))),
           msgs)

/-- Embedding of the CLI error mapping in `main` (lines 243-245): a
`LookupError` escaping `remove_stopwords` makes the process exit with
code 1; a normal result exits with code 0. -/
def cliExitCode (r : Except (List Char) FilterResult) : Nat :=
  match r with
  | Except.error _ => 1
  | Except.ok _ => 0

/-- A character the spec-modelled tokenizer treats as part of a word:
neither whitespace nor ASCII punctuation. -/
def wordChar (c : Char) : Bool :=
  !(isPySpace c) && !(punctuationString.contains c)

/-- Helper for `modelTokenize`: `acc` holds the reversed characters of
the word currently being read. -/
def modelTokenizeAux : List Char → List Char → List (List Char)
  | acc, [] => if acc = [] then [] else [acc.reverse]
  | acc, c :: cs =>
    if isPySpace c then
      if acc = [] then modelTokenizeAux [] cs
      else acc.reverse :: modelTokenizeAux [] cs
    else if punctuationString.contains c then
      if acc = [] then [c] :: modelTokenizeAux [] cs
      else acc.reverse :: [c] :: modelTokenizeAux [] cs
    else modelTokenizeAux (c :: acc) cs

/-- Modelled from the spec: the external NLTK word tokenizer (not part
of this repository).  Per the spec it "splits on whitespace and
punctuation boundaries"; this model emits maximal runs of non-space,
non-punctuation characters as word tokens and each ASCII punctuation
character as its own single-character token, discarding whitespace. -/
def modelTokenize (s : List Char) : List (List Char) := modelTokenizeAux [] s

/-- Modelled from the spec: the external NLTK English stopword corpus
(not part of this repository).  A representative set of high-frequency,
low-information English words as described by the spec's glossary and
exercised by the repository's tests. -/
def englishStopwords : List Token :=
  ["i", "me", "my", "we", "our", "you", "he", "she", "it", "they",
   "a", "an", "the", "is", "are", "was", "were", "be", "been",
   "this", "that", "these", "those", "of", "and", "or", "but",
   "how", "what", "which", "to", "in", "on", "for", "with"].map
    (fun s => s.toList)

/-- Modelled from the spec: a concrete NLTK instance with the
spec-modelled tokenizer, the spec-modelled English stopword corpus, and
a small supported-language set containing "english". -/
def modelNLTK : NLTK where
  fileids := ["english".toList, "french".toList, "spanish".toList]
  words := fun lang =>
    if lang = "english".toList then Except.ok englishStopwords
    else Except.error ("missing corpus".toList)
  word_tokenize := fun s => Except.ok (modelTokenize s)

/-- Modelled from the spec: an NLTK installation whose tokenizer
resource is missing, so every tokenization raises `LookupError`. -/
def brokenTokenizerNLTK : NLTK where
  fileids := ["english".toList]
  words := fun _ => Except.ok englishStopwords
  word_tokenize := fun _ => Except.error ("punkt not found".toList)

/-- Modelled from the spec: an NLTK installation whose stopword corpus
is missing, so every stopword lookup raises `LookupError`. -/
def brokenCorpusNLTK : NLTK where
  fileids := ["english".toList]
  words := fun _ => Except.error ("stopwords not found".toList)
  word_tokenize := fun s => Except.ok (modelTokenize s)

end Stopwords


namespace Stopwords

/-! ### Helper lemmas -/

/-- Folding single-character deletions over a character list deletes
exactly the characters of that list. -/
theorem foldl_filter_eq_filter_not_contains (cs : List Char) (w : List Char) :
    cs.foldl (fun acc c => acc.filter (fun ch => ch != c)) w
      = w.filter (fun ch => !(cs.contains ch)) := by
  induction cs generalizing w with
  | nil => simp
  | cons c cs ih =>
    simp only [List.foldl_cons, ih, List.filter_filter]
    apply List.filter_congr
    intro x _
    by_cases hx : x = c <;> simp [hx]

/-- `removeSpecialChars` deletes exactly the special characters. -/
theorem removeSpecialChars_eq_filter (w : Token) :
    removeSpecialChars w = w.filter (fun ch => !(specialChars.contains ch)) :=
  foldl_filter_eq_filter_not_contains specialChars w

/-- The append-and-keep-nonempty loop over cleaned tokens equals a map
followed by a nonempty filter. -/
theorem filterMap_clean_eq (l : List Token) :
    (l.filterMap (fun w =>
        let w := cleanToken w
        if w = [] then none else some w))
      = (l.map cleanToken).filter (fun w => w != []) := by
  induction l with
  | nil => rfl
  | cons a l ih =>
    by_cases h : cleanToken a = [] <;>
      simp [List.filterMap_cons, List.filter_cons, h, ih]

/-- `pyIn` decides contiguous-substring containment. -/
theorem pyIn_iff_substring (w s : List Char) :
    pyIn w s = true ↔ w <:+: s := by
  induction s with
  | nil =>
    simp [pyIn, List.isPrefixOf_iff_prefix]
  | cons c rest ih =>
    simp only [pyIn, Bool.or_eq_true, List.isPrefixOf_iff_prefix, ih]
    exact List.infix_cons_iff.symm

/-- Characters of a cleaned token all occur in the original token. -/
theorem mem_of_mem_cleanToken {c : Char} {w : Token} (h : c ∈ cleanToken w) : c ∈ w := by
  have h1 : c ∈ stripPossessive w := by
    have := removeSpecialChars_eq_filter (stripPossessive w)
    rw [cleanToken, this] at h
    exact List.mem_of_mem_filter h
  rw [stripPossessive] at h1
  by_cases he : endsWithApostropheS w
  · rw [if_pos he] at h1
    exact List.mem_of_mem_take h1
  · rwa [if_neg he] at h1

/-- Every token emitted by the spec-modelled tokenizer is either a
single ASCII punctuation character or a non-empty run of word
characters, provided the accumulator holds only word characters. -/
theorem modelTokenizeAux_shape :
    ∀ (cs acc : List Char), (∀ c ∈ acc, wordChar c = true) →
      ∀ t ∈ modelTokenizeAux acc cs,
        (∃ c, c ∈ punctuationString ∧ t = [c]) ∨
          (t ≠ [] ∧ ∀ c ∈ t, wordChar c = true) := by
  intro cs
  induction cs with
  | nil =>
    intro acc hacc t ht
    by_cases h : acc = []
    · simp [modelTokenizeAux, h] at ht
    · simp only [modelTokenizeAux, if_neg h, List.mem_singleton] at ht
      subst ht
      exact Or.inr ⟨by simpa [List.reverse_eq_nil_iff] using h,
        fun c hc => hacc c (List.mem_reverse.mp hc)⟩
  | cons c cs ih =>
    intro acc hacc t ht
    simp only [modelTokenizeAux] at ht
    by_cases hsp : isPySpace c
    · rw [if_pos hsp] at ht
      by_cases h0 : acc = []
      · rw [if_pos h0] at ht
        exact ih [] (by simp) t ht
      · rw [if_neg h0] at ht
        rcases List.mem_cons.mp ht with h | h
        · subst h
          exact Or.inr ⟨by simpa [List.reverse_eq_nil_iff] using h0,
            fun d hd => hacc d (List.mem_reverse.mp hd)⟩
        · exact ih [] (by simp) t h
    · rw [if_neg hsp] at ht
      by_cases hpc : punctuationString.contains c
      · rw [if_pos hpc] at ht
        by_cases h0 : acc = []
        · rw [if_pos h0] at ht
          rcases List.mem_cons.mp ht with h | h
          · exact Or.inl ⟨c, List.elem_iff.mp hpc, h⟩
          · exact ih [] (by simp) t h
        · rw [if_neg h0] at ht
          rcases List.mem_cons.mp ht with h | h
          · subst h
            exact Or.inr ⟨by simpa [List.reverse_eq_nil_iff] using h0,
              fun d hd => hacc d (List.mem_reverse.mp hd)⟩
          · rcases List.mem_cons.mp h with h' | h'
            · exact Or.inl ⟨c, List.elem_iff.mp hpc, h'⟩
            · exact ih [] (by simp) t h'
      · rw [if_neg hpc] at ht
        refine ih (c :: acc) ?_ t ht
        intro d hd
        rcases List.mem_cons.mp hd with h | h
        · subst h
          simp only [wordChar, Bool.and_eq_true, Bool.not_eq_true']
          exact ⟨Bool.of_not_eq_true hsp, Bool.of_not_eq_true hpc⟩
        · exact hacc d h

/-- Shape of the tokens of the spec-modelled tokenizer. -/
theorem modelTokenize_shape (s : List Char) :
    ∀ t ∈ modelTokenize s,
      (∃ c, c ∈ punctuationString ∧ t = [c]) ∨
        (t ≠ [] ∧ ∀ c ∈ t, wordChar c = true) :=
  modelTokenizeAux_shape s [] (by simp)

/-- A single character of the punctuation string is a substring of it. -/
theorem pyIn_singleton_of_mem {c : Char} (h : c ∈ punctuationString) :
    pyIn [c] punctuationString = true := by
  rw [pyIn_iff_substring]
  rcases List.append_of_mem h with ⟨l1, l2, he⟩
  exact ⟨l1, l2, by simp [he]⟩

/-- Collapsing whitespace leaves a whitespace-free non-empty prefix
unchanged and resets the run flag behind it. -/
theorem collapseWsAux_append :
    ∀ (w : List Char), w ≠ [] → (∀ c ∈ w, isPySpace c = false) →
      ∀ (rest : List Char) (b : Bool),
        collapseWsAux b (w ++ rest) = w ++ collapseWsAux false rest := by
  intro w
  induction w with
  | nil => intro h; exact absurd rfl h
  | cons c w ih =>
    intro _ hw rest b
    have hc : isPySpace c = false := hw c (by simp)
    rcases eq_or_ne w [] with h | h
    · subst h; simp [collapseWsAux, hc]
    · have hrec := ih h (fun d hd => hw d (List.mem_cons_of_mem _ hd)) rest false
      simp [collapseWsAux, hc, hrec]

/-- The run flag is irrelevant when the string does not start with
whitespace. -/
theorem collapseWsAux_true_eq_false (l : List Char)
    (h : ∀ c, l.head? = some c → isPySpace c = false) :
    collapseWsAux true l = collapseWsAux false l := by
  cases l with
  | nil => rfl
  | cons c cs => simp [collapseWsAux, h c rfl]

/-- A join of non-empty tokens is non-empty when the token list is. -/
theorem joinWords_ne_nil :
    ∀ (ts : List Token), ts ≠ [] → (∀ u ∈ ts, u ≠ []) → joinWords ts ≠ [] := by
  intro ts hne h
  match ts with
  | [w] => simpa [joinWords] using h w (by simp)
  | w :: v :: ws =>
    have hw : w ≠ [] := h w (by simp)
    simp [joinWords]

/-- The head of a join is the head of its first token. -/
theorem joinWords_head? (w : Token) (ws : List Token) (hw : w ≠ []) :
    (joinWords (w :: ws)).head? = w.head? := by
  cases ws with
  | nil => rfl
  | cons v ws =>
    cases w with
    | nil => exact absurd rfl hw
    | cons c w => simp [joinWords, List.head?_append]

/-- The last character of a join is the last character of one of its
tokens. -/
theorem joinWords_getLast? :
    ∀ (ts : List Token), ts ≠ [] → (∀ u ∈ ts, u ≠ []) →
      ∃ u, u ∈ ts ∧ (joinWords ts).getLast? = u.getLast? := by
  intro ts
  induction ts with
  | nil => intro h; exact absurd rfl h
  | cons w ts ih =>
    intro _ h
    cases ts with
    | nil => exact ⟨w, by simp, by simp [joinWords]⟩
    | cons v ws =>
      rcases ih (by simp) (fun u hu => h u (List.mem_cons_of_mem _ hu)) with ⟨u, hu, he⟩
      have hJ : joinWords (v :: ws) ≠ [] :=
        joinWords_ne_nil (v :: ws) (by simp) (fun u hu => h u (List.mem_cons_of_mem _ hu))
      rcases Option.isSome_iff_exists.mp (List.getLast?_isSome.mpr hJ) with ⟨y, hy⟩
      refine ⟨u, List.mem_cons_of_mem _ hu, ?_⟩
      show (joinWords (w :: v :: ws)).getLast? = u.getLast?
      have : joinWords (w :: v :: ws) = w ++ ' ' :: joinWords (v :: ws) := by
        simp [joinWords]
      rw [this, List.getLast?_append, List.getLast?_cons, hy]
      simp only [Option.getD_some, Option.or_some]
      rw [← hy, he]

/-- `pyStrip` is the identity on strings that neither start nor end
with whitespace. -/
theorem pyStrip_eq_self {s : List Char}
    (h1 : ∀ c, s.head? = some c → isPySpace c = false)
    (h2 : ∀ c, s.getLast? = some c → isPySpace c = false) :
    pyStrip s = s := by
  cases s with
  | nil => rfl
  | cons c cs =>
    have hc : isPySpace c = false := h1 c rfl
    have hd : List.dropWhile isPySpace (c :: cs) = c :: cs := by
      rw [List.dropWhile_cons, hc]; simp
    rw [pyStrip, hd]
    rcases hr : (c :: cs).reverse with _ | ⟨d, r⟩
    · simp at hr
    · have hdr : (c :: cs).getLast? = some d := by
        rw [← List.head?_reverse, hr]; rfl
      have hdws : isPySpace d = false := h2 d hdr
      rw [List.dropWhile_cons, hdws]
      simp only [Bool.false_eq_true, if_false]
      rw [← hr, List.reverse_reverse]

/-- Collapsing whitespace is the identity on a join of non-empty,
whitespace-free tokens. -/
theorem collapseWs_joinWords :
    ∀ (ts : List Token), (∀ w ∈ ts, w ≠ [] ∧ ∀ c ∈ w, isPySpace c = false) →
      collapseWs (joinWords ts) = joinWords ts := by
  intro ts
  rw [collapseWs]
  induction ts with
  | nil => intro _; rfl
  | cons w ts ih =>
    intro h
    have hw := h w (by simp)
    cases ts with
    | nil =>
      have := collapseWsAux_append w hw.1 hw.2 [] false
      simpa [joinWords, collapseWsAux] using this
    | cons v ws =>
      have hJ : joinWords (w :: v :: ws) = w ++ ' ' :: joinWords (v :: ws) := by
        simp [joinWords]
      rw [hJ, collapseWsAux_append w hw.1 hw.2 (' ' :: joinWords (v :: ws)) false]
      have hsp : isPySpace ' ' = true := by decide
      have hvne : v ≠ [] := (h v (by simp)).1
      have hhead : ∀ a, (joinWords (v :: ws)).head? = some a → isPySpace a = false := by
        intro a ha
        rw [joinWords_head? v ws hvne] at ha
        have hav : a ∈ v := by
          cases v with
          | nil => exact absurd rfl hvne
          | cons d v' =>
            simp only [List.head?_cons, Option.some.injEq] at ha
            subst ha
            simp
        exact (h v (by simp)).2 a hav
      have htail := ih (fun u hu => h u (List.mem_cons_of_mem _ hu))
      have h1 : collapseWsAux false (' ' :: joinWords (v :: ws))
          = ' ' :: collapseWsAux true (joinWords (v :: ws)) := by
        simp [collapseWsAux, hsp]
      rw [h1, collapseWsAux_true_eq_false _ hhead, htail]

/-- Unfolding of `remove_stopwords` on the successful path. -/
theorem remove_stopwords_ok (nltk : NLTK) (text : List Char) (language : Lang)
    (punctuation list_words : Bool) (ws sw : List Token)
    (h : text ≠ [])
    (ht : nltk.word_tokenize (pyLower text) = Except.ok ws)
    (hw : nltk.words (resolveLanguage nltk.fileids language).1 = Except.ok sw) :
    remove_stopwords nltk text language punctuation list_words =
      (Except.ok (if list_words then FilterResult.list (filterTokens sw punctuation ws)
        else FilterResult.str
          (pyStrip (collapseWs (joinWords (filterTokens sw punctuation ws))))),
       (resolveLanguage nltk.fileids language).2) := by
  simp only [remove_stopwords, h, if_neg, ite_false, ht, hw]
  cases list_words <;> simp

/-- Unfolding of `remove_stopwords` when tokenization raises `LookupError`. -/
theorem remove_stopwords_tokenize_error (nltk : NLTK) (text : List Char)
    (language : Lang) (punctuation list_words : Bool) (e : List Char)
    (h : text ≠ [])
    (ht : nltk.word_tokenize (pyLower text) = Except.error e) :
    remove_stopwords nltk text language punctuation list_words =
      (Except.error e,
       (resolveLanguage nltk.fileids language).2 ++ [Msg.resourceError e, Msg.resourceHint]) := by
  simp only [remove_stopwords, h, if_neg, ite_false, ht]

/-- Unfolding of `remove_stopwords` when the stopword-corpus lookup
raises `LookupError`. -/
theorem remove_stopwords_words_error (nltk : NLTK) (text : List Char)
    (language : Lang) (punctuation list_words : Bool) (ws : List Token) (e : List Char)
    (h : text ≠ [])
    (ht : nltk.word_tokenize (pyLower text) = Except.ok ws)
    (hw : nltk.words (resolveLanguage nltk.fileids language).1 = Except.error e) :
    remove_stopwords nltk text language punctuation list_words =
      (Except.error e,
       (resolveLanguage nltk.fileids language).2 ++ [Msg.resourceError e, Msg.resourceHint]) := by
  simp only [remove_stopwords, h, if_neg, ite_false, ht, hw]

/-- The no-punctuation branch of `filterTokens`, written as
filter-map-filter. -/
theorem filterTokens_false_eq (stop_words ws : List Token) :
    filterTokens stop_words false ws
      = ((ws.filter (keepWord stop_words)).map cleanToken).filter (fun w => w != []) :=
  filterMap_clean_eq _

/-- The punctuation-keeping branch of `filterTokens` is the plain
stopword filter. -/
theorem filterTokens_true_eq (stop_words ws : List Token) :
    filterTokens stop_words true ws
      = ws.filter (fun w => !(stop_words.contains w)) := rfl

/-- The head of a list, when present, is a member. -/
theorem mem_of_head? {l : List Char} {c : Char} (h : l.head? = some c) : c ∈ l := by
  cases l with
  | nil => simp at h
  | cons d l => simp only [List.head?_cons, Option.some.injEq] at h; subst h; simp

/-! ### Claims -/

/-- C2: the cleanup order is as claimed — when `keepPunctuation` is
false each surviving token first has a possessive `'s` suffix
stripped, then every occurrence of each `special_chars` character
deleted, and is discarded if empty, while no cleanup happens when
`keepPunctuation` is true — but the claimed removal of the curly right
single quote is a code bug: `special_chars` actually holds a
duplicated straight quote and no U+2019 (contradicting the code's own
comment and docstring), so cleanup retains the curly quote, as the
evaluation at the failing token `the’` shows (a straight-quote token
is cleaned as expected). -/
theorem claim_C2_cleanup_order (stop_words ws : List Token) :
    filterTokens stop_words false ws
      = ((ws.filter (keepWord stop_words)).map cleanToken).filter (fun w => w != [])
    ∧ (∀ w, cleanToken w
        = (stripPossessive w).filter (fun c => !(specialChars.contains c)))
    ∧ filterTokens stop_words true ws
        = ws.filter (fun w => !(stop_words.contains w))
    ∧ specialChars = ['\x60', '\x27', '"', '-', '_', '\x27']
    ∧ '’' ∉ specialChars
    ∧ cleanToken "the’".toList = "the’".toList
    ∧ cleanToken "a-b\x27c".toList = "abc".toList :=
  ⟨filterTokens_false_eq stop_words ws,
   fun w => removeSpecialChars_eq_filter (stripPossessive w),
   filterTokens_true_eq stop_words ws,
   by decide, by decide, by decide, by decide⟩

/-- C3: with `keepPunctuation` true, the output is exactly the token
sequence of the lowercased input with the stopword-set members removed,
all other tokens (punctuation included) retained unchanged and in
order. -/
theorem claim_C3_keep_punctuation (nltk : NLTK) (text : List Char)
    (language : Lang) (ws sw : List Token)
    (h : text ≠ [])
    (ht : nltk.word_tokenize (pyLower text) = Except.ok ws)
    (hw : nltk.words (resolveLanguage nltk.fileids language).1 = Except.ok sw) :
    (remove_stopwords nltk text language true true).1
        = Except.ok (FilterResult.list (ws.filter (fun w => !(sw.contains w))))
    ∧ (ws.filter (fun w => !(sw.contains w))).Sublist ws := by
  constructor
  · rw [remove_stopwords_ok nltk text language true true ws sw h ht hw]
    rfl
  · exact List.filter_sublist ws

/-- Witness for C3 at a concrete input. -/
theorem claim_C3_witness :
    (remove_stopwords modelNLTK "the cat and dog".toList "english".toList true true).1
        = Except.ok (FilterResult.list
            ((modelTokenize (pyLower "the cat and dog".toList)).filter
              (fun w => !(englishStopwords.contains w))))
    ∧ ((modelTokenize (pyLower "the cat and dog".toList)).filter
        (fun w => !(englishStopwords.contains w))).Sublist
        (modelTokenize (pyLower "the cat and dog".toList)) :=
  claim_C3_keep_punctuation modelNLTK "the cat and dog".toList "english".toList
    (modelTokenize (pyLower "the cat and dog".toList)) englishStopwords
    (by decide) rfl rfl

/-- C4: empty input returns the empty string (string mode) or the
empty list (list mode) for every NLTK instance, language and flag,
with no warning emitted and no tokenizer or corpus access — so no
`LookupError` is possible (the result is `ok` even for an NLTK whose
resources are all missing). -/
theorem claim_C4_empty_input (nltk : NLTK) (language : Lang) (punctuation : Bool) :
    remove_stopwords nltk [] language punctuation true
        = (Except.ok (FilterResult.list []), [])
    ∧ remove_stopwords nltk [] language punctuation false
        = (Except.ok (FilterResult.str []), []) :=
  ⟨rfl, rfl⟩

/-- C9: calls whose language arguments agree after lowercasing return
identical results (value and stderr messages alike). -/
theorem claim_C9_language_case_insensitive (nltk : NLTK) (text : List Char)
    (l1 l2 : Lang) (punctuation list_words : Bool)
    (h : pyLower l1 = pyLower l2) :
    remove_stopwords nltk text l1 punctuation list_words
      = remove_stopwords nltk text l2 punctuation list_words := by
  simp only [remove_stopwords, resolveLanguage, h]

/-- Witness for C9 at concrete inputs. -/
theorem claim_C9_witness :
    pyLower "ENGLISH".toList = pyLower "English".toList
    ∧ remove_stopwords modelNLTK "test message".toList "ENGLISH".toList false false
      = remove_stopwords modelNLTK "test message".toList "English".toList false false :=
  ⟨by decide,
   claim_C9_language_case_insensitive modelNLTK "test message".toList
     "ENGLISH".toList "English".toList false false (by decide)⟩

/-- C10: the punctuation test of the no-punctuation branch drops every
token that is a contiguous substring of `string.punctuation`, including
multi-character tokens such as `./` and `:;`, because it is substring
containment (`pyIn`), not equality with a single character. -/
theorem claim_C10_substring_containment :
    (∀ (stop_words ws : List Token) (w : Token),
        pyIn w punctuationString = true → w ∉ ws.filter (keepWord stop_words))
    ∧ (∀ (w s : List Char), pyIn w s = true ↔ w <:+: s)
    ∧ pyIn "./".toList punctuationString = true
    ∧ pyIn ":;".toList punctuationString = true
    ∧ filterTokens [] false ["./".toList, ":;".toList] = [] := by
  refine ⟨?_, pyIn_iff_substring, by decide, by decide, by decide⟩
  intro stop_words ws w hin hmem
  have hkeep := (List.mem_filter.mp hmem).2
  rw [keepWord] at hkeep
  simp [hin] at hkeep

/-- Witness for C10 at a concrete input. -/
theorem claim_C10_witness :
    "./".toList ∉ (["./".toList, "abc".toList] : List Token).filter (keepWord []) :=
  claim_C10_substring_containment.1 [] ["./".toList, "abc".toList] "./".toList (by decide)

/-- C5: a non-empty text with an unsupported language (lowercased form
not among the fileids) does not fail on that account: a warning
carrying the normalized language and the sorted supported-language list
is written first, the default language is substituted, and the returned
value equals that of the same call with language "english"
(assuming, as in the real corpus, that "english" is supported). -/
theorem claim_C5_unsupported_language (nltk : NLTK) (text : List Char)
    (language : Lang) (punctuation list_words : Bool)
    (h : text ≠ [])
    (hl : nltk.fileids.contains (pyLower language) = false)
    (hd : nltk.fileids.contains ("english".toList) = true) :
    (remove_stopwords nltk text language punctuation list_words).1
      = (remove_stopwords nltk text ("english".toList) punctuation list_words).1
    ∧ (remove_stopwords nltk text language punctuation list_words).2
      = Msg.unsupportedLanguage (pyLower language) (sortStrings nltk.fileids)
        :: (remove_stopwords nltk text ("english".toList) punctuation list_words).2 := by
  have r1 : resolveLanguage nltk.fileids language
      = (DEFAULT_LANGUAGE,
         [Msg.unsupportedLanguage (pyLower language) (sortStrings nltk.fileids)]) := by
    simp only [resolveLanguage, hl, Bool.false_eq_true, if_false]
  have hc : nltk.fileids.contains (pyLower ("english".toList)) = true := by
    rw [show pyLower ("english".toList) = ("english".toList) from by decide]
    exact hd
  have r2 : resolveLanguage nltk.fileids ("english".toList) = (DEFAULT_LANGUAGE, []) := by
    simp only [resolveLanguage, hc, if_true]
    rw [show pyLower ("english".toList) = ("english".toList) from by decide]
    rfl
  rcases htok : nltk.word_tokenize (pyLower text) with e | ws
  · rw [remove_stopwords_tokenize_error nltk text language punctuation list_words e h htok,
      remove_stopwords_tokenize_error nltk text ("english".toList) punctuation list_words e h htok,
      r1, r2]
    exact ⟨rfl, rfl⟩
  · rcases hwords : nltk.words DEFAULT_LANGUAGE with e | sw
    · rw [remove_stopwords_words_error nltk text language punctuation list_words ws e h htok
          (by rw [r1]; exact hwords),
        remove_stopwords_words_error nltk text ("english".toList) punctuation list_words ws e h htok
          (by rw [r2]; exact hwords),
        r1, r2]
      exact ⟨rfl, rfl⟩
    · rw [remove_stopwords_ok nltk text language punctuation list_words ws sw h htok
          (by rw [r1]; exact hwords),
        remove_stopwords_ok nltk text ("english".toList) punctuation list_words ws sw h htok
          (by rw [r2]; exact hwords),
        r1, r2]
      exact ⟨rfl, rfl⟩

/-- Witness for C5: the spec's own example, language "klingon". -/
theorem claim_C5_witness :
    ((remove_stopwords modelNLTK "test message content".toList "klingon".toList false false).1
      = (remove_stopwords modelNLTK "test message content".toList ("english".toList) false false).1
    ∧ (remove_stopwords modelNLTK "test message content".toList "klingon".toList false false).2
      = Msg.unsupportedLanguage (pyLower "klingon".toList) (sortStrings modelNLTK.fileids)
        :: (remove_stopwords modelNLTK "test message content".toList ("english".toList) false false).2)
    ∧ (remove_stopwords modelNLTK "test message content".toList "klingon".toList false false).1
      = Except.ok (FilterResult.str ("test message content".toList)) :=
  ⟨claim_C5_unsupported_language modelNLTK "test message content".toList
      "klingon".toList false false (by decide) (by decide) (by decide),
   by rfl⟩

/-- C8: when the tokenizer or the stopword corpus resource is missing,
`remove_stopwords` writes the diagnostic and the remediation hint to
stderr (after any language warning) and propagates the `LookupError`;
the CLI maps this to exit code 1. -/
theorem claim_C8_missing_resource (nltk : NLTK) (text : List Char)
    (language : Lang) (punctuation list_words : Bool) (h : text ≠ []) :
    (∀ e, nltk.word_tokenize (pyLower text) = Except.error e →
      remove_stopwords nltk text language punctuation list_words
        = (Except.error e,
           (resolveLanguage nltk.fileids language).2
             ++ [Msg.resourceError e, Msg.resourceHint])
      ∧ cliExitCode (remove_stopwords nltk text language punctuation list_words).1 = 1)
    ∧ (∀ ws e, nltk.word_tokenize (pyLower text) = Except.ok ws →
        nltk.words (resolveLanguage nltk.fileids language).1 = Except.error e →
        remove_stopwords nltk text language punctuation list_words
          = (Except.error e,
             (resolveLanguage nltk.fileids language).2
               ++ [Msg.resourceError e, Msg.resourceHint])
        ∧ cliExitCode (remove_stopwords nltk text language punctuation list_words).1 = 1) := by
  constructor
  · intro e he
    have h1 := remove_stopwords_tokenize_error nltk text language punctuation list_words e h he
    exact ⟨h1, by rw [h1]; rfl⟩
  · intro ws e ht hw
    have h1 := remove_stopwords_words_error nltk text language punctuation list_words ws e h ht hw
    exact ⟨h1, by rw [h1]; rfl⟩

/-- Witness for C8: a missing tokenizer and a missing corpus, concretely. -/
theorem claim_C8_witness :
    (remove_stopwords brokenTokenizerNLTK "abc".toList "english".toList false false
      = (Except.error ("punkt not found".toList),
         [Msg.resourceError ("punkt not found".toList), Msg.resourceHint])
    ∧ cliExitCode (remove_stopwords brokenTokenizerNLTK "abc".toList "english".toList false false).1 = 1)
    ∧ (remove_stopwords brokenCorpusNLTK "abc".toList "english".toList false false
      = (Except.error ("stopwords not found".toList),
         [Msg.resourceError ("stopwords not found".toList), Msg.resourceHint])
    ∧ cliExitCode (remove_stopwords brokenCorpusNLTK "abc".toList "english".toList false false).1 = 1) := by
  constructor
  · have h := (claim_C8_missing_resource brokenTokenizerNLTK "abc".toList
      "english".toList false false (by decide)).1 ("punkt not found".toList) rfl
    exact ⟨h.1.trans (by rfl), h.2⟩
  · have h := (claim_C8_missing_resource brokenCorpusNLTK "abc".toList
      "english".toList false false (by decide)).2
      (modelTokenize (pyLower "abc".toList)) ("stopwords not found".toList) rfl rfl
    exact ⟨h.1.trans (by rfl), h.2⟩

/-- C7: in list mode the output never contains an empty token (for the
punctuation-keeping branch, provided the tokenizer emitted no empty
token), and the surviving tokens keep their original relative order:
the punctuation-keeping output is a sublist of the token list, and the
punctuation-removing output is a sublist of the cleaned token list;
the spec's concrete example holds under the modelled tokenizer. -/
theorem claim_C7_no_empty_entries :
    (∀ (stop_words ws : List Token),
        [] ∉ filterTokens stop_words false ws
        ∧ ((∀ w ∈ ws, w ≠ []) → [] ∉ filterTokens stop_words true ws)
        ∧ (filterTokens stop_words true ws).Sublist ws
        ∧ (filterTokens stop_words false ws).Sublist (ws.map cleanToken))
    ∧ remove_stopwords modelNLTK "hello,,,world...test!!!".toList "english".toList false true
        = (Except.ok (FilterResult.list ["hello".toList, "world".toList, "test".toList]), []) := by
  constructor
  · intro stop_words ws
    refine ⟨?_, ?_, ?_, ?_⟩
    · intro hmem
      rw [filterTokens_false_eq] at hmem
      have := (List.mem_filter.mp hmem).2
      simp at this
    · intro hne hmem
      rw [filterTokens_true_eq] at hmem
      exact hne [] (List.mem_filter.mp hmem).1 rfl
    · rw [filterTokens_true_eq]
      exact List.filter_sublist ws
    · rw [filterTokens_false_eq]
      exact List.Sublist.trans (List.filter_sublist _)
        (List.Sublist.map cleanToken (List.filter_sublist ws))
  · rfl

/-- Witness for C7 at a concrete token list. -/
theorem claim_C7_witness :
    [] ∉ filterTokens englishStopwords false ["the".toList, "cat".toList]
    ∧ [] ∉ filterTokens englishStopwords true ["the".toList, "cat".toList]
    ∧ (filterTokens englishStopwords true ["the".toList, "cat".toList]).Sublist
        ["the".toList, "cat".toList]
    ∧ (filterTokens englishStopwords false ["the".toList, "cat".toList]).Sublist
        (["the".toList, "cat".toList].map cleanToken) := by
  have h := claim_C7_no_empty_entries.1 englishStopwords ["the".toList, "cat".toList]
  exact ⟨h.1, h.2.1 (by decide), h.2.2.1, h.2.2.2⟩

/-- C6: in string mode the result is the filtered tokens joined with
single spaces, whitespace-run-collapsed and trimmed; when the filtered
tokens are non-empty and whitespace-free (as word tokens are) the
joined string is already normalized, so the output is exactly the
tokens separated by one space with no leading or trailing whitespace;
the spec's concrete example holds under the modelled tokenizer. -/
theorem claim_C6_string_mode_normalized :
    (∀ (nltk : NLTK) (text : List Char) (language : Lang) (punctuation : Bool)
        (ws sw : List Token),
        text ≠ [] →
        nltk.word_tokenize (pyLower text) = Except.ok ws →
        nltk.words (resolveLanguage nltk.fileids language).1 = Except.ok sw →
        (remove_stopwords nltk text language punctuation false).1
          = Except.ok (FilterResult.str
              (pyStrip (collapseWs (joinWords (filterTokens sw punctuation ws)))))
        ∧ ((∀ w ∈ filterTokens sw punctuation ws, w ≠ [] ∧ ∀ c ∈ w, isPySpace c = false) →
            pyStrip (collapseWs (joinWords (filterTokens sw punctuation ws)))
              = joinWords (filterTokens sw punctuation ws)))
    ∧ remove_stopwords modelNLTK "hello    world     test".toList "english".toList false false
        = (Except.ok (FilterResult.str ("hello world test".toList)), []) := by
  constructor
  · intro nltk text language punctuation ws sw h ht hw
    constructor
    · rw [remove_stopwords_ok nltk text language punctuation false ws sw h ht hw]
      rfl
    · intro hclean
      rw [collapseWs_joinWords (filterTokens sw punctuation ws) hclean]
      rcases hts : filterTokens sw punctuation ws with _ | ⟨w, ts⟩
      · rfl
      · rw [hts] at hclean
        apply pyStrip_eq_self
        · intro c hc
          rw [joinWords_head? w ts (hclean w (by simp)).1] at hc
          exact (hclean w (by simp)).2 c (mem_of_head? hc)
        · intro c hc
          rcases joinWords_getLast? (w :: ts) (by simp) (fun u hu => (hclean u hu).1)
            with ⟨u, hu, he⟩
          rw [he] at hc
          exact (hclean u hu).2 c (List.mem_of_mem_getLast? hc)
  · rfl

/-- Witness for C6 at a concrete input. -/
theorem claim_C6_witness :
    (remove_stopwords modelNLTK "john runs home".toList "english".toList false false).1
      = Except.ok (FilterResult.str
          (pyStrip (collapseWs (joinWords (filterTokens englishStopwords false
            (modelTokenize (pyLower "john runs home".toList)))))))
    ∧ pyStrip (collapseWs (joinWords (filterTokens englishStopwords false
          (modelTokenize (pyLower "john runs home".toList)))))
        = joinWords (filterTokens englishStopwords false
            (modelTokenize (pyLower "john runs home".toList))) := by
  have h := claim_C6_string_mode_normalized.1 modelNLTK "john runs home".toList
    "english".toList false (modelTokenize (pyLower "john runs home".toList))
    englishStopwords (by decide) rfl rfl
  exact ⟨h.1, h.2 (by decide)⟩

/-- C1, counterexample: with punctuation removal, the special-character
cleanup runs after the stopword test and can turn a surviving
non-stopword token into a stopword of the resolved language.  The
single token `t-h-e` — one token for tokenizers that keep hyphenated
words together, as NLTK's does — is neither a stopword nor a substring
of the punctuation string, so it survives the filter; cleanup then
deletes the hyphens and the output token is exactly the stopword
`the`. -/
theorem claim_C1_counterexample :
    filterTokens englishStopwords false ["t-h-e".toList] = ["the".toList]
    ∧ "the".toList ∈ englishStopwords
    ∧ keepWord englishStopwords "t-h-e".toList = true :=
  ⟨by decide, by decide, by decide⟩

/-- C1, amended: with punctuation removal, no output token equals a
single ASCII punctuation character (under the modelled tokenizer), and
every output token is the cleanup image of a tokenizer token that was
itself neither a stopword nor a substring of the punctuation string —
but cleanup (deletion of backtick, quotes, hyphen, underscore) may map
such a token onto a stopword, so the no-stopword guarantee holds only
before cleanup. -/
theorem claim_C1_amended (stop_words : List Token) (text : List Char) :
    ∀ t ∈ filterTokens stop_words false (modelTokenize (pyLower text)),
      (∀ c ∈ punctuationString, t ≠ [c])
      ∧ ∃ w ∈ modelTokenize (pyLower text),
          keepWord stop_words w = true ∧ t = cleanToken w := by
  intro t ht
  rw [filterTokens_false_eq] at ht
  have hmap := (List.mem_filter.mp ht).1
  rcases List.mem_map.mp hmap with ⟨w, hwmem, hwt⟩
  have hwin := (List.mem_filter.mp hwmem).1
  have hkeep := (List.mem_filter.mp hwmem).2
  refine ⟨?_, w, hwin, hkeep, hwt.symm⟩
  intro c hc hEq
  rcases modelTokenize_shape (pyLower text) w hwin with ⟨d, hd, hwd⟩ | ⟨_, hword⟩
  · rw [hwd, keepWord] at hkeep
    have hpy : pyIn [d] punctuationString = true := pyIn_singleton_of_mem hd
    simp [hpy] at hkeep
  · have hcw : c ∈ w := mem_of_mem_cleanToken (by rw [hwt, hEq]; simp)
    have hwc := hword c hcw
    rw [wordChar] at hwc
    have hcontains : punctuationString.contains c = true := List.elem_iff.mpr hc
    rw [hcontains] at hwc
    simp at hwc

/-- Witness for the amended C1 at a concrete input: the output token
`x` of the text `x-y!` is not a punctuation character, and is the
cleanup image of the surviving tokenizer token `x`. -/
theorem claim_C1_witness :
    (∀ c ∈ punctuationString, "x".toList ≠ [c])
    ∧ ∃ w ∈ modelTokenize (pyLower "x-y!".toList),
        keepWord englishStopwords w = true ∧ "x".toList = cleanToken w :=
  claim_C1_amended englishStopwords "x-y!".toList "x".toList (by decide)
